import Mathlib

/-!
Verification of the mcp-collaborator text-editing and git tool server.

The repository ships two Python sources: `server.py` (the tool dispatch
layer `call_tool`) and `git.py` (thin wrappers over a git library).  The
text-editing core that `server.py` imports from `.handlers` (LineIndexer,
HashVerifier, RangeEditor, AtomicWriter and the six tool handlers) is not
part of the visible sources, so those components are modelled from the
specification; the dispatch layer and the git wrappers are embedded from
the source files directly.

File content is modelled as a list of characters (decoded text; the
decoding step itself is abstracted away).  The filesystem state relevant
to one operation is `Option Content`: `none` means the target file does
not exist.
-/

/-- Decoded text content of a file, one character per byte of interest. -/
abbrev Content := List Char

/-- Modelled from the spec: LineIndexer.  Splits raw content into lines,
each retaining its original terminator (LF or CRLF; the final line may
have none).  CRLF needs no special case: the carriage return is an
ordinary character kept at the end of the line body. -/
def splitLines : Content → List Content
  | [] => []
  | c :: rest =>
    if c = '\n' then ['\n'] :: splitLines rest
    else
      match splitLines rest with
      | [] => [[c]]
      | l :: ls => (c :: l) :: ls

/-- Whether a line (or a whole content) ends with a line-feed terminator. -/
def endsLF (l : Content) : Bool := l.getLast? = some '\n'

/-- A line with a terminator guaranteed at its end. -/
def ensureTerm (l : Content) : Content := if endsLF l then l else l ++ ['\n']

/-- Modelled from the spec: the trailing-terminator policy of Append —
"if the prior file had no trailing terminator, one must be added before
the new content".  Empty content is left empty. -/
def ensureTrailing (c : Content) : Content := if c = [] then [] else ensureTerm c

/-- Terminates the last line of a line sequence, leaving the others alone.
Only the final line produced by `splitLines` can lack a terminator. -/
def terminateLast : List Content → List Content
  | [] => []
  | [l] => [ensureTerm l]
  | l :: l2 :: ls => l :: terminateLast (l2 :: ls)

/-- The line without its terminator (LF or CRLF). -/
def lineBody (l : Content) : Content :=
  match l.reverse with
  | c1 :: c2 :: r => if c1 = '\n' then (if c2 = '\r' then r.reverse else (c2 :: r).reverse) else l
  | [c1] => if c1 = '\n' then [] else l
  | [] => l

/-- Modelled from the spec: HashVerifier.digest — a stable content digest
over the full byte content.  The concrete cryptographic hash is abstracted
as a deterministic rolling hash; the claims depend only on the digest
being a function of the content. -/
def digest (c : Content) : Nat :=
  c.foldl (fun h ch => (h * 31 + ch.toNat) % (2 ^ 64)) 5381

/-- Modelled from the spec: HashVerifier.verify — an operation carrying an
`expected_hash` passes only if it equals the digest of the current
content; an operation carrying none always passes. -/
def hashOk (c : Content) (expected : Option Nat) : Bool :=
  match expected with
  | none => true
  | some h => h = digest c

/-- Modelled from the spec: the error taxonomy of the editing core. -/
inductive EditError
  | Conflict
  | OutOfRange
  | NotFound
  | AlreadyExists
  | EncodingError
  | IOFailure
deriving DecidableEq, Repr

/-- Modelled from the spec: the closed operation variant set of the
RangeEditor.  Line numbers are 1-indexed; payloads are sequences of lines,
each line carrying its own terminator. -/
inductive EditKind
  | get (start stop : Nat)
  | create (overwrite : Bool) (payload : Content)
  | append (payload : List Content)
  | insert (pos : Nat) (payload : List Content)
  | delete (start stop : Nat)
  | patch (start stop : Nat) (payload : List Content)
deriving DecidableEq, Repr

/-- Modelled from the spec: an EditRequest — an operation kind plus the
optional whole-file `expected_hash` token. -/
structure EditRequest where
  kind : EditKind
  expected_hash : Option Nat
deriving DecidableEq, Repr

/-- Modelled from the spec: an EditResult — the digest of the content
after the operation, any returned lines, and the total line count. -/
structure EditResult where
  hash : Nat
  lines : List Content
  total : Nat
deriving DecidableEq, Repr

/-- Whether the operation kind is one of the four mutations that verify
an expected hash against existing content: Append, Insert, Delete, Patch. -/
def EditKind.isMutation : EditKind → Bool
  | .append _ => true
  | .insert _ _ => true
  | .delete _ _ => true
  | .patch _ _ _ => true
  | _ => false

/-- Injected I/O faults for the commit path: the temporary-file write step
or the final rename may fail. -/
structure Faults where
  writeTempFails : Bool
  renameFails : Bool
deriving DecidableEq, Repr

/-- Modelled from the spec: AtomicWriter — writes the new content to a
temporary file and renames it over the target.  A failure in either step
yields `IOFailure` and, because the rename is atomic, never a partially
written target: the caller keeps the old content on any error. -/
def atomicCommit (f : Faults) (c : Content) : Except EditError Content :=
  if f.writeTempFails then .error .IOFailure
  else if f.renameFails then .error .IOFailure
  else .ok c

/-- Commits new content through the AtomicWriter and builds the mutation
result: the digest of the committed content and the new line count. -/
def commitNew (f : Faults) (c : Content) :
    Except EditError (EditResult × Option Content) :=
  match atomicCommit f c with
  | .error e => .error e
  | .ok c2 => .ok ({ hash := digest c2, lines := [], total := (splitLines c2).length }, some c2)

/-- Content produced by Append: the old content, with a terminator added
if it lacked one, followed by the payload lines. -/
def appendContent (c : Content) (payload : List Content) : Content :=
  ensureTrailing c ++ payload.flatten

/-- Line sequence produced by Insert at 1-indexed position `pos`:
at `length + 1` it terminates the final line and appends, matching
Append; elsewhere it splices the payload before line `pos`. -/
def insertAt (lines : List Content) (pos : Nat) (payload : List Content) : List Content :=
  if pos = lines.length + 1 then terminateLast lines ++ payload
  else lines.take (pos - 1) ++ payload ++ lines.drop (pos - 1)

/-- Modelled from the spec: the RangeEditor core, one variant per
operation kind.  Order of checks for mutations of an existing file:
missing file (`NotFound`), then the hash verification (`Conflict`) —
recomputed from current content immediately before mutating — then range
validation (`OutOfRange`), then the atomic commit.  Returns the result
and the new filesystem state on success. -/
def editCore (f : Faults) (fs : Option Content) (req : EditRequest) :
    Except EditError (EditResult × Option Content) :=
  match req.kind with
  | .get s e =>
    match fs with
    | none => .error .NotFound
    | some c =>
      let lines := splitLines c
      if s < 1 ∨ e + 1 < s ∨ lines.length < e then .error .OutOfRange
      else .ok ({ hash := digest c, lines := (lines.drop (s - 1)).take (e + 1 - s),
                  total := lines.length }, fs)
  | .create overwrite payload =>
    match fs with
    | some _ => if overwrite then commitNew f payload else .error .AlreadyExists
    | none => commitNew f payload
  | .append payload =>
    match fs with
    | none => .error .NotFound
    | some c =>
      if hashOk c req.expected_hash then commitNew f (appendContent c payload)
      else .error .Conflict
  | .insert pos payload =>
    match fs with
    | none => .error .NotFound
    | some c =>
      if hashOk c req.expected_hash then
        let lines := splitLines c
        if pos < 1 ∨ lines.length + 1 < pos then .error .OutOfRange
        else commitNew f ((insertAt lines pos payload).flatten)
      else .error .Conflict
  | .delete s e =>
    match fs with
    | none => .error .NotFound
    | some c =>
      if hashOk c req.expected_hash then
        let lines := splitLines c
        if s < 1 ∨ e < s ∨ lines.length < e then .error .OutOfRange
        else commitNew f ((lines.take (s - 1) ++ lines.drop e).flatten)
      else .error .Conflict
  | .patch s e payload =>
    match fs with
    | none => .error .NotFound
    | some c =>
      if hashOk c req.expected_hash then
        let lines := splitLines c
        if s < 1 ∨ e + 1 < s ∨ lines.length < e then .error .OutOfRange
        else commitNew f ((lines.take (s - 1) ++ payload ++ lines.drop e).flatten)
      else .error .Conflict

/-- Runs one RangeEditor operation against the filesystem state: on
success the state becomes the committed content, on any failure the
on-disk file keeps its previous bytes. -/
def runEdit (f : Faults) (fs : Option Content) (req : EditRequest) :
    Except EditError EditResult × Option Content :=
  match editCore f fs req with
  | .ok (res, fs2) => (.ok res, fs2)
  | .error e => (.error e, fs)

/-!
Embedding of `git.py` and `server.py`.  The git library itself
(`git.Repo`, `repo.iter_commits`, `repo.git.status()` and so on) is an
external collaborator: its observable answers are fields of the `Repo`
model, while the formatting done by `git.py` is embedded verbatim.
-/

/-- A commit as consumed by `git_log` and `git_show`: the fields of the
git library's commit object that `git.py` reads. -/
structure Commit where
  hexsha : String
  author : String
  authored_datetime : String
  message : String
deriving DecidableEq, Repr

/-- The log-entry format built by the loop body of `git_log` in git.py. -/
def formatCommit (c : Commit) : String :=
  "Commit: " ++ c.hexsha ++ "\n" ++ "Author: " ++ c.author ++ "\n" ++
    "Date: " ++ c.authored_datetime ++ "\n" ++ "Message: " ++ c.message ++ "\n"

/-- Model of the external git library's repository object: the answers it
would give to the calls `git.py` makes.  `commitsList` is the full commit
history in iteration order; `iter_commits` with `max_count` yields its
first `max_count` elements. -/
structure Repo where
  statusText : String
  diffUnstagedText : String
  diffStagedText : String
  diffTargetText : String → String
  commitHexsha : String
  commitsList : List Commit
  showFor : String → String

/-- git.py `git_status`: returns `repo.git.status()`. -/
def git_status (r : Repo) : String := r.statusText

/-- git.py `git_diff_unstaged`: returns `repo.git.diff()`. -/
def git_diff_unstaged (r : Repo) : String := r.diffUnstagedText

/-- git.py `git_diff_staged`: returns the diff against the index. -/
def git_diff_staged (r : Repo) : String := r.diffStagedText

/-- git.py `git_diff`: returns the diff against the given target. -/
def git_diff (r : Repo) (target : String) : String := r.diffTargetText target

/-- git.py `git_commit`: commits and reports the new commit hash. -/
def git_commit (r : Repo) (_message : String) : String :=
  "Changes committed successfully with hash " ++ r.commitHexsha

/-- git.py `git_reset`: unstages everything. -/
def git_reset (_r : Repo) : String := "All staged changes reset"

/-- git.py `git_log`: lists the first `max_count` commits, one formatted
entry per commit. -/
def git_log (r : Repo) (max_count : Nat) : List String :=
  (r.commitsList.take max_count).map formatCommit

/-- git.py `git_checkout`: creates and switches to the named branch. -/
def git_checkout (_r : Repo) (branch_name : String) : String :=
  "Initialized new working checkout path: " ++ branch_name

/-- git.py `git_show`: formats the given revision and its patch. -/
def git_show (r : Repo) (revision : String) : String := r.showFor revision

/-- The world a `call_tool` invocation sees: the cloned repository, the
target text file's on-disk state, and the fault injection for commits. -/
structure World where
  repo : Repo
  fs : Option Content
  faults : Faults

/-- The protocol arguments dictionary, restricted to the keys server.py
reads; `none` means the key is absent from the dictionary. -/
structure Args where
  checkout_path : Option String
  target : Option String
  message : Option String
  revision : Option String
  max_count : Option Nat
  editReq : Option EditRequest
deriving DecidableEq, Repr

/-- One element of the response sequence a tool call produces: plain text
for the git tools, or — modelled from the spec — a structured success or
error payload from a text-editing handler. -/
inductive ToolResponse
  | text (s : String)
  | editSuccess (r : EditResult)
  | editError (e : EditError)
deriving DecidableEq, Repr

/-- The observable outcome of one `call_tool` invocation: a returned
response sequence, or one of the exception paths of server.py — the
`KeyError` raised before the try block, the re-raised `ValueError`, or
the `RuntimeError` the generic except clause wraps other faults in. -/
inductive CallOutcome
  | reply (rs : List ToolResponse)
  | uncaughtKeyError (key : String)
  | valueErrorRaised (msg : String)
  | runtimeErrorRaised (msg : String)
deriving DecidableEq, Repr

/-- Modelled from the spec: the registered names of the six text-editing
tool handlers imported from the missing `.handlers` module. -/
def textToolNames : List String :=
  ["get_text_file_contents", "create_text_file", "append_text_file_contents",
   "delete_text_file_contents", "insert_text_file_contents", "patch_text_file_contents"]

/-- Whether a tool name is one of the six text-editing handlers. -/
def isTextToolName (n : String) : Bool := textToolNames.contains n

/-- Modelled from the spec: a text-editing handler's `run_tool` — it runs
the RangeEditor operation and produces either a success payload or a
structured error carrying the taxonomy kind, never raising for expected
conditions. -/
def run_tool (f : Faults) (fs : Option Content) (req : EditRequest) : ToolResponse :=
  match (runEdit f fs req).1 with
  | .ok r => .editSuccess r
  | .error e => .editError e

/-- Python's `"\n".join(log)`. -/
def joinNL (l : List String) : String := String.intercalate "\n" l

/-- server.py `call_tool`: reads `arguments["checkout_path"]` before any
dispatch (a missing key is an uncaught `KeyError`, raised before the try
block), handles `git_checkout` outside the try block, and dispatches the
remaining tools inside it, where a missing required key becomes a
`RuntimeError` via the generic except clause, a `ValueError` for an
unknown tool is re-raised, and the text-editing handlers (modelled from
the spec) return their payloads. -/
def call_tool (name : String) (args : Args) (w : World) : CallOutcome :=
  match args.checkout_path with
  | none => .uncaughtKeyError "checkout_path"
  | some cp =>
    if name = "git_checkout" then .reply [.text (git_checkout w.repo cp)]
    else if name = "git_status" then
      .reply [.text ("Repository status:\n" ++ git_status w.repo)]
    else if name = "git_diff_unstaged" then
      .reply [.text ("Unstaged changes:\n" ++ git_diff_unstaged w.repo)]
    else if name = "git_diff_staged" then
      .reply [.text ("Staged changes:\n" ++ git_diff_staged w.repo)]
    else if name = "git_diff" then
      match args.target with
      | none => .runtimeErrorRaised "Error executing command: target"
      | some t => .reply [.text ("Diff with " ++ t ++ ":\n" ++ git_diff w.repo t)]
    else if name = "git_commit" then
      match args.message with
      | none => .runtimeErrorRaised "Error executing command: message"
      | some m => .reply [.text (git_commit w.repo m)]
    else if name = "git_reset" then .reply [.text (git_reset w.repo)]
    else if name = "git_log" then
      .reply [.text ("Commit history:\n" ++ joinNL (git_log w.repo (args.max_count.getD 10)))]
    else if name = "git_show" then
      match args.revision with
      | none => .runtimeErrorRaised "Error executing command: revision"
      | some rev => .reply [.text (git_show w.repo rev)]
    else if isTextToolName name then
      match args.editReq with
      | none => .runtimeErrorRaised "Error executing command: missing edit arguments"
      | some req => .reply [run_tool w.faults w.fs req]
    else .valueErrorRaised ("Unknown tool: " ++ name)

/-- A small concrete repository model used to instantiate theorems on
closed inputs. -/
def sampleRepo : Repo :=
  { statusText := "clean", diffUnstagedText := "", diffStagedText := "",
    diffTargetText := fun _ => "", commitHexsha := "abc123",
    commitsList := [{ hexsha := "abc123", author := "ada",
                      authored_datetime := "2025-01-01", message := "init" }],
    showFor := fun _ => "" }

/-- A small concrete world: the sample repository over a two-byte file
with no injected faults. -/
def sampleWorld : World :=
  { repo := sampleRepo, fs := some ['a', '\n'], faults := { writeTempFails := false, renameFails := false } }

/-- Concrete protocol arguments with every optional key present except
those a given scenario leaves out. -/
def sampleArgs : Args :=
  { checkout_path := some "branch-1", target := none, message := none,
    revision := none, max_count := none,
    editReq := some { kind := .delete 1 1, expected_hash := some 0 } }

/-!
Lemmas about the line splitter.
-/

/-- A nonempty list of lines comes only from nonempty content. -/
theorem splitLines_ne_nil_of (s : Content) (h : splitLines s ≠ []) : s ≠ [] := by
  intro hs
  subst hs
  exact h rfl

/-- Concatenating the split lines reproduces the content byte for byte. -/
theorem splitLines_flatten (s : Content) : (splitLines s).flatten = s := by
  induction s with
  | nil => rfl
  | cons c rest ih =>
    by_cases hc : c = '\n'
    · subst hc
      simp [splitLines, ih]
    · cases h : splitLines rest with
      | nil =>
        have hr : rest = [] := by
          rw [h] at ih
          simpa using ih.symm
        subst hr
        simp [splitLines, hc]
      | cons l ls =>
        rw [h] at ih
        simp [splitLines, hc, h]
        simpa using ih

/-- Splitting a run of bare terminators yields that many one-terminator
lines. -/
theorem splitLines_replicate (n : Nat) :
    splitLines (List.replicate n '\n') = List.replicate n ['\n'] := by
  induction n with
  | zero => rfl
  | succ k ih => simp [List.replicate, splitLines, ih]

/-- Prepending a character to nonempty content commutes with the
trailing-terminator policy. -/
theorem ensureTrailing_cons (a : Char) (r : Content) (h : r ≠ []) :
    ensureTrailing (a :: r) = a :: ensureTrailing r := by
  cases r with
  | nil => exact absurd rfl h
  | cons b rs =>
    unfold ensureTrailing ensureTerm endsLF
    rw [List.getLast?_cons_cons]
    by_cases hLF : (b :: rs).getLast? = some '\n'
    · simp [hLF]
    · simp [hLF]

/-- Prepending a character to a nonempty line commutes with forcing a
terminator. -/
theorem ensureTerm_cons (a : Char) (r : Content) (h : r ≠ []) :
    ensureTerm (a :: r) = a :: ensureTerm r := by
  cases r with
  | nil => exact absurd rfl h
  | cons b rs =>
    unfold ensureTerm endsLF
    rw [List.getLast?_cons_cons]
    by_cases hLF : (b :: rs).getLast? = some '\n'
    · simp [hLF]
    · simp [hLF]

/-- Terminating the last split line and flattening equals applying the
Append trailing-terminator policy to the raw content. -/
theorem terminateLast_flatten (s : Content) :
    (terminateLast (splitLines s)).flatten = ensureTrailing s := by
  induction s with
  | nil => rfl
  | cons c rest ih =>
    by_cases hc : c = '\n'
    · subst hc
      cases h : splitLines rest with
      | nil =>
        have hr : rest = [] := by
          have := splitLines_flatten rest
          rw [h] at this
          simpa using this.symm
        subst hr
        simp [splitLines, terminateLast, ensureTerm, ensureTrailing, endsLF]
      | cons l ls =>
        have hrest : rest ≠ [] := splitLines_ne_nil_of rest (by simp [h])
        rw [ensureTrailing_cons '\n' rest hrest]
        rw [h] at ih
        simp [splitLines, h, terminateLast]
        simpa [h] using ih
    · cases h : splitLines rest with
      | nil =>
        have hr : rest = [] := by
          have := splitLines_flatten rest
          rw [h] at this
          simpa using this.symm
        subst hr
        simp [splitLines, hc, terminateLast, ensureTerm, ensureTrailing, endsLF]
      | cons l ls =>
        have hrest : rest ≠ [] := splitLines_ne_nil_of rest (by simp [h])
        rw [ensureTrailing_cons c rest hrest]
        cases ls with
        | nil =>
          have hl : rest = l := by
            have := splitLines_flatten rest
            rw [h] at this
            simpa using this.symm
          subst hl
          simp [splitLines, hc, h, terminateLast, ensureTrailing, hrest]
          exact ensureTerm_cons c rest hrest
        | cons l2 ls2 =>
          rw [h] at ih
          simp [splitLines, hc, h, terminateLast]
          simpa [terminateLast] using ih

/-!
Lemmas about the commit path and the editing core.
-/

/-- A successful commit installed exactly the requested content, and the
reported hash is its digest. -/
theorem commitNew_ok (f : Faults) (c : Content) (res : EditResult) (fs2 : Option Content)
    (h : commitNew f c = .ok (res, fs2)) : fs2 = some c ∧ res.hash = digest c := by
  unfold commitNew atomicCommit at h
  by_cases h1 : f.writeTempFails
  · simp [h1] at h
  · by_cases h2 : f.renameFails
    · simp [h1, h2] at h
    · simp [h1, h2] at h
      obtain ⟨hres, hfs⟩ := h
      constructor
      · exact hfs.symm
      · rw [← hres]

/-- Every successful path of the editing core ends with some definite
content on disk whose digest is the reported hash. -/
theorem editCore_ok (f : Faults) (fs : Option Content) (req : EditRequest)
    (res : EditResult) (fs2 : Option Content)
    (h : editCore f fs req = .ok (res, fs2)) :
    ∃ c, fs2 = some c ∧ res.hash = digest c := by
  obtain ⟨kind, eh⟩ := req
  cases kind with
  | get s e =>
    cases fs with
    | none => simp [editCore] at h
    | some c =>
      simp only [editCore] at h
      split at h
      · simp at h
      · simp at h
        exact ⟨c, by rw [← h.2], by rw [← h.1]⟩
  | create overwrite payload =>
    cases fs with
    | none => exact ⟨payload, commitNew_ok f payload res fs2 h⟩
    | some c =>
      simp only [editCore] at h
      split at h
      · exact ⟨payload, commitNew_ok f payload res fs2 h⟩
      · simp at h
  | append payload =>
    cases fs with
    | none => simp [editCore] at h
    | some c =>
      simp only [editCore] at h
      split at h
      · exact ⟨appendContent c payload, commitNew_ok f _ res fs2 h⟩
      · simp at h
  | insert pos payload =>
    cases fs with
    | none => simp [editCore] at h
    | some c =>
      simp only [editCore] at h
      split at h
      · split at h
        · simp at h
        · exact ⟨_, commitNew_ok f _ res fs2 h⟩
      · simp at h
  | delete s e =>
    cases fs with
    | none => simp [editCore] at h
    | some c =>
      simp only [editCore] at h
      split at h
      · split at h
        · simp at h
        · exact ⟨_, commitNew_ok f _ res fs2 h⟩
      · simp at h
  | patch s e payload =>
    cases fs with
    | none => simp [editCore] at h
    | some c =>
      simp only [editCore] at h
      split at h
      · split at h
        · simp at h
        · exact ⟨_, commitNew_ok f _ res fs2 h⟩
      · simp at h

/-!
Claim theorems.
-/

/-- C3: for every accepted text input, the LineIndexer split round-trips —
concatenating the returned lines (terminators retained) reproduces the
input byte for byte; empty input yields zero lines, and input of exactly
`n` line terminators yields exactly `n` empty lines. -/
theorem C3_lineIndexer_round_trip (s : Content) (n : Nat) :
    (splitLines s).flatten = s ∧
    splitLines ([] : Content) = [] ∧
    splitLines (List.replicate n '\n') = List.replicate n ['\n'] ∧
    ∀ l ∈ splitLines (List.replicate n '\n'), lineBody l = [] := by
  refine ⟨splitLines_flatten s, rfl, splitLines_replicate n, ?_⟩
  intro l hl
  rw [splitLines_replicate n] at hl
  have hl2 : l = ['\n'] := List.eq_of_mem_replicate hl
  subst hl2
  rfl

/-- C8: Get is read-only and idempotent — it never changes the file, and
a second Get after a first one (no intervening write) returns the very
same lines, total line count and hash. -/
theorem C8_get_read_only_idempotent (f : Faults) (fs : Option Content)
    (s e : Nat) (hexp : Option Nat) :
    (runEdit f fs { kind := .get s e, expected_hash := hexp }).2 = fs ∧
    runEdit f (runEdit f fs { kind := .get s e, expected_hash := hexp }).2
        { kind := .get s e, expected_hash := hexp } =
      runEdit f fs { kind := .get s e, expected_hash := hexp } := by
  have h1 : (runEdit f fs { kind := .get s e, expected_hash := hexp }).2 = fs := by
    cases fs with
    | none => rfl
    | some c =>
      by_cases hr : s < 1 ∨ e + 1 < s ∨ (splitLines c).length < e
      · simp only [Nat.lt_one_iff] at hr
        simp [runEdit, editCore, hr]
      · simp only [Nat.lt_one_iff] at hr
        simp [runEdit, editCore, hr]
  exact ⟨h1, by rw [h1]⟩

/-- C1: an edit request (Append, Insert, Delete or Patch) whose
`expected_hash` differs from the digest of the current content fails with
`Conflict`, and the file is byte-for-byte unchanged. -/
theorem C1_conflict_fails_unchanged (f : Faults) (c : Content) (kind : EditKind) (h0 : Nat)
    (hk : kind.isMutation = true) (hne : h0 ≠ digest c) :
    runEdit f (some c) { kind := kind, expected_hash := some h0 } =
      (.error .Conflict, some c) := by
  have hok : hashOk c (some h0) = false := by simp [hashOk, hne]
  cases kind with
  | get s e => simp [EditKind.isMutation] at hk
  | create o p => simp [EditKind.isMutation] at hk
  | append p => simp [runEdit, editCore, hok]
  | insert pos p => simp [runEdit, editCore, hok]
  | delete s e => simp [runEdit, editCore, hok]
  | patch s e p => simp [runEdit, editCore, hok]

/-- C1 witness: a Delete on "a\n" carrying the stale hash 0 is rejected
with `Conflict` and leaves the file as it was. -/
theorem C1_conflict_fails_unchanged_witness :
    (EditKind.delete 1 1).isMutation = true ∧ (0 : Nat) ≠ digest ['a', '\n'] ∧
    runEdit { writeTempFails := false, renameFails := false } (some ['a', '\n'])
        { kind := .delete 1 1, expected_hash := some 0 } =
      (.error .Conflict, some ['a', '\n']) :=
  ⟨by decide, by decide,
    C1_conflict_fails_unchanged { writeTempFails := false, renameFails := false }
      ['a', '\n'] (.delete 1 1) 0 (by decide) (by decide)⟩

/-- C2: every RangeEditor operation is all-or-nothing — either it
succeeds and the on-disk file holds exactly the committed content (whose
digest is the reported hash), or it fails (fault injection on the
temporary-file write and rename steps included) and the target file's
bytes are exactly what they were before the call. -/
theorem C2_all_or_nothing (f : Faults) (fs : Option Content) (req : EditRequest) :
    (∃ res c, runEdit f fs req = (.ok res, some c) ∧ res.hash = digest c) ∨
    (∃ e, runEdit f fs req = (.error e, fs)) := by
  cases h : editCore f fs req with
  | error e =>
    right
    exact ⟨e, by simp [runEdit, h]⟩
  | ok p =>
    obtain ⟨res, fs2⟩ := p
    obtain ⟨c, hc, hh⟩ := editCore_ok f fs req res fs2 h
    left
    exact ⟨res, c, by simp [runEdit, h, hc], hh⟩

/-- C5: patching a valid range with exactly the file's current lines in
that range, under the correct current hash, succeeds and leaves both the
bytes and the content hash unchanged. -/
theorem C5_patch_identity (c : Content) (s e : Nat)
    (hs : 1 ≤ s) (hse : s ≤ e + 1) (he : e ≤ (splitLines c).length) :
    runEdit { writeTempFails := false, renameFails := false } (some c)
        { kind := .patch s e (((splitLines c).drop (s - 1)).take (e + 1 - s)),
          expected_hash := some (digest c) } =
      (.ok { hash := digest c, lines := [], total := (splitLines c).length }, some c) := by
  have hok : hashOk c (some (digest c)) = true := by simp [hashOk]
  have hr : ¬(s < 1 ∨ e + 1 < s ∨ (splitLines c).length < e) := by omega
  have hsum : s - 1 + (e + 1 - s) = e := by omega
  have hlines : (splitLines c).take (s - 1) ++
      (((splitLines c).drop (s - 1)).take (e + 1 - s) ++ (splitLines c).drop e) =
      splitLines c := by
    rw [← List.append_assoc, ← List.take_add, hsum, List.take_append_drop]
  simp only [Nat.lt_one_iff] at hr
  simp [runEdit, editCore, hok, hr, commitNew, atomicCommit, hlines, splitLines_flatten]

/-- C5 witness: patching line 2 of "one\ntwo\n" with its own current
content under the correct hash returns the same hash and leaves the file
unchanged. -/
theorem C5_patch_identity_witness :
    runEdit { writeTempFails := false, renameFails := false }
        (some ['o', 'n', 'e', '\n', 't', 'w', 'o', '\n'])
        { kind := .patch 2 2 (((splitLines ['o', 'n', 'e', '\n', 't', 'w', 'o', '\n']).drop (2 - 1)).take (2 + 1 - 2)),
          expected_hash := some (digest ['o', 'n', 'e', '\n', 't', 'w', 'o', '\n']) } =
      (.ok { hash := digest ['o', 'n', 'e', '\n', 't', 'w', 'o', '\n'], lines := [],
             total := (splitLines ['o', 'n', 'e', '\n', 't', 'w', 'o', '\n']).length },
        some ['o', 'n', 'e', '\n', 't', 'w', 'o', '\n']) :=
  C5_patch_identity ['o', 'n', 'e', '\n', 't', 'w', 'o', '\n'] 2 2
    (by decide) (by decide) (by decide)

/-- C6: for an existing file, Insert at position `total_line_count + 1`
produces exactly the same outcome (result and resulting content) as
Append with the same payload. -/
theorem C6_insert_at_end_is_append (f : Faults) (c : Content) (payload : List Content)
    (hexp : Option Nat) :
    runEdit f (some c)
        { kind := .insert ((splitLines c).length + 1) payload, expected_hash := hexp } =
    runEdit f (some c) { kind := .append payload, expected_hash := hexp } := by
  by_cases hok : hashOk c hexp = true
  · have hins : (insertAt (splitLines c) ((splitLines c).length + 1) payload).flatten =
        appendContent c payload := by
      unfold insertAt appendContent
      rw [if_pos rfl, List.flatten_append, terminateLast_flatten]
    simp [runEdit, editCore, hok, hins]
  · have hok2 : hashOk c hexp = false := by simpa using hok
    simp [runEdit, editCore, hok2]

/-- C7: Delete on an existing file with an empty-ordered range
(`start > end`) or bounds beyond the current line count fails with
`OutOfRange` and leaves the file unmodified. -/
theorem C7_delete_out_of_range (f : Faults) (c : Content) (s e : Nat) (hexp : Option Nat)
    (hok : hashOk c hexp = true) (hr : e < s ∨ (splitLines c).length < e) :
    runEdit f (some c) { kind := .delete s e, expected_hash := hexp } =
      (.error .OutOfRange, some c) := by
  have hcond : s < 1 ∨ e < s ∨ (splitLines c).length < e := Or.inr hr
  simp only [Nat.lt_one_iff] at hcond
  simp [runEdit, editCore, hok, hcond]

/-- C7 witness: deleting the reversed range [2,1] from "a\n" fails with
`OutOfRange` and leaves the file as it was. -/
theorem C7_delete_out_of_range_witness :
    runEdit { writeTempFails := false, renameFails := false } (some ['a', '\n'])
        { kind := .delete 2 1, expected_hash := none } =
      (.error .OutOfRange, some ['a', '\n']) :=
  C7_delete_out_of_range { writeTempFails := false, renameFails := false }
    ['a', '\n'] 2 1 none (by decide) (by decide)

/-- C9: whatever tool is named, `call_tool` reads
`arguments["checkout_path"]` before any dispatch, so a call whose
arguments lack that key ends in the uncaught `KeyError` path that
bypasses the try/except wrapping — even for tools that never use the
computed checkout path. -/
theorem C9_missing_checkout_path_keyerror (name : String) (args : Args) (w : World)
    (h : args.checkout_path = none) :
    call_tool name args w = .uncaughtKeyError "checkout_path" := by
  unfold call_tool
  rw [h]

/-- C9 witness: calling `git_status` without a `checkout_path` argument
raises the uncaught `KeyError`. -/
theorem C9_missing_checkout_path_keyerror_witness :
    call_tool "git_status"
        { checkout_path := none, target := none, message := none, revision := none,
          max_count := none, editReq := none } sampleWorld =
      .uncaughtKeyError "checkout_path" :=
  C9_missing_checkout_path_keyerror "git_status"
    { checkout_path := none, target := none, message := none, revision := none,
      max_count := none, editReq := none } sampleWorld rfl

/-- C4: when a text-editing tool call hits an expected error condition of
the taxonomy, the dispatch layer answers with a structured error response
carrying that kind — it does not escalate to the raised `RuntimeError` or
`ValueError` paths. -/
theorem C4_expected_errors_are_structured (w : World) (args : Args) (cp : String)
    (name : String) (req : EditRequest) (e : EditError)
    (hcp : args.checkout_path = some cp) (hname : isTextToolName name = true)
    (hreq : args.editReq = some req)
    (he : (runEdit w.faults w.fs req).1 = .error e) :
    call_tool name args w = .reply [.editError e] := by
  have hrun : run_tool w.faults w.fs req = .editError e := by
    unfold run_tool
    rw [he]
  have hmem : name = "get_text_file_contents" ∨ name = "create_text_file" ∨
      name = "append_text_file_contents" ∨ name = "delete_text_file_contents" ∨
      name = "insert_text_file_contents" ∨ name = "patch_text_file_contents" := by
    simpa [isTextToolName, textToolNames] using hname
  unfold call_tool
  rw [hcp]
  rcases hmem with rfl | rfl | rfl | rfl | rfl | rfl <;>
    simp +decide [isTextToolName, textToolNames, hreq, hrun]

/-- C4 witness: a `patch_text_file_contents` call whose request carries a
stale hash is answered with a structured `Conflict` error response. -/
theorem C4_expected_errors_are_structured_witness :
    call_tool "patch_text_file_contents" sampleArgs sampleWorld =
      .reply [.editError .Conflict] :=
  C4_expected_errors_are_structured sampleWorld sampleArgs "branch-1"
    "patch_text_file_contents" { kind := .delete 1 1, expected_hash := some 0 }
    .Conflict rfl (by decide) rfl rfl

/-- C10: `git_log` returns one formatted entry per listed commit and at
most `max_count` entries, and the server substitutes the default
`max_count` of 10 when the caller omits it. -/
theorem C10_git_log_bounded_with_default (w : World) (m : Nat) (args : Args) (cp : String)
    (hcp : args.checkout_path = some cp) (hmc : args.max_count = none) :
    (git_log w.repo m).length ≤ m ∧
    git_log w.repo m = (w.repo.commitsList.take m).map formatCommit ∧
    call_tool "git_log" args w =
      .reply [.text ("Commit history:\n" ++ joinNL (git_log w.repo 10))] := by
  refine ⟨?_, rfl, ?_⟩
  · simp [git_log]
  · unfold call_tool
    rw [hcp]
    simp +decide [hmc]

/-- C10 witness: a `git_log` call with no `max_count` argument against
the one-commit sample repository reports that commit under the default
limit of 10, and `git_log` at limit 3 keeps at most 3 entries. -/
theorem C10_git_log_bounded_with_default_witness :
    (git_log sampleWorld.repo 3).length ≤ 3 ∧
    git_log sampleWorld.repo 3 = (sampleWorld.repo.commitsList.take 3).map formatCommit ∧
    call_tool "git_log"
        { checkout_path := some "branch-1", target := none, message := none,
          revision := none, max_count := none, editReq := none } sampleWorld =
      .reply [.text ("Commit history:\n" ++ joinNL (git_log sampleWorld.repo 10))] :=
  C10_git_log_bounded_with_default sampleWorld 3
    { checkout_path := some "branch-1", target := none, message := none,
      revision := none, max_count := none, editReq := none } "branch-1" rfl rfl
